import Mathlib

/-!
# Verification of the TaskPlanner core (src/src/TaskPlanner.tsx)

A shallow embedding of the logical core of the single-file React task
planner: the task data model, the creation / move / resize gesture
handlers, the filter pipeline and the month-grid computation.

Modelling conventions, fixed once for the whole file:

* Calendar dates.  The source represents dates as canonical
  `YYYY-MM-DD` strings (produced by `toISOString().split('T')[0]`) and
  compares them with JavaScript string comparison.  Lexicographic
  order on canonical zero-padded keys agrees with chronological order,
  and the millisecond `Date` arithmetic used by `handleTaskDrag`
  (difference of UTC midnights, always an exact multiple of a day) is
  day arithmetic on those keys.  The embedding therefore represents a
  date key as an integer day number (`Int`), with `≤` standing for the
  source's string comparison and `+`/`-` for its `Date` arithmetic.
* JavaScript string truthiness.  The nullable fields of the drag and
  create-selection states hold either `null` or a non-empty date key /
  task id, so `x` as a JS condition is modelled by `Option.isSome`.
* `name.trim()` and `toLowerCase()/includes()` are modelled
  character-wise over `String.data` (`strTrim`, `strToLower`,
  `strIncludes` below).
-/

namespace TaskPlanner

/-- The four task categories of the source's `TaskCategory` union type. -/
inductive TaskCategory where
  | toDo
  | inProgress
  | review
  | completed
deriving DecidableEq

/-- The source's `Task` interface; `startDate`/`endDate` are date keys
modelled as integer day numbers (see the file header). -/
structure Task where
  id : String
  name : String
  startDate : Int
  endDate : Int
  category : TaskCategory
deriving DecidableEq

/-- The two alternatives of the source's `resizeType` field (start or end edge). -/
inductive ResizeEdge where
  | start
  | «end»
deriving DecidableEq

/-- The source's `DragState` record. -/
structure DragState where
  isDragging : Bool
  isResizing : Bool
  resizeType : Option ResizeEdge
  taskId : Option String
  startDate : Option Int
  endDate : Option Int
deriving DecidableEq

/-- The reset value the source gives `dragState` initially and after
`handleTaskDragEnd`. -/
def initialDragState : DragState :=
  ⟨false, false, none, none, none, none⟩

/-- The source's `CreateTaskState` record (drag-to-create selection). -/
structure CreateTaskState where
  isSelecting : Bool
  startDate : Option Int
  currentDate : Option Int
deriving DecidableEq

/-- The reset value of `createTaskState`. -/
def initialCreateTaskState : CreateTaskState :=
  ⟨false, none, none⟩

/-- The source's `ModalTaskState` record (the creation form's fields).
The source resets the date fields to the empty string; they are never
read before `handleMouseUp` overwrites them, and the embedding (which
models date keys as integers) uses day `0` for that dead reset value. -/
structure ModalTaskState where
  name : String
  category : TaskCategory
  startDate : Int
  endDate : Int
deriving DecidableEq

/-! ## Character-wise models of the JavaScript string operations -/

/-- Model of JavaScript `String.prototype.trim`: remove whitespace
characters from both ends of the character list. -/
def trimChars (l : List Char) : List Char :=
  (l.dropWhile Char.isWhitespace).rdropWhile Char.isWhitespace

/-- Model of `name.trim()` on Lean strings. -/
def strTrim (s : String) : String :=
  ⟨trimChars s.data⟩

/-- Model of JavaScript `String.prototype.toLowerCase` (character-wise). -/
def strToLower (s : String) : String :=
  ⟨s.data.map Char.toLower⟩

/-- Occurrence of `needle` as a contiguous sublist of `hay`, as a
recursive boolean (scan every tail for a prefix match). -/
def isSubstrOf (needle : List Char) : List Char → Bool
  | [] => needle.isEmpty
  | c :: rest => needle.isPrefixOf (c :: rest) || isSubstrOf needle rest

/-- Model of JavaScript `hay.includes(needle)`: `needle` occurs as a
contiguous substring of `hay`. -/
def strIncludes (hay needle : String) : Bool :=
  isSubstrOf needle.data hay.data

/-- The first element surviving `dropWhile p` fails `p`. -/
theorem dropWhile_head_false {α : Type} (p : α → Bool) (l : List α) :
    ∀ x xs, l.dropWhile p = x :: xs → p x = false := by
  induction l with
  | nil =>
      intro x xs h
      simp [List.dropWhile] at h
  | cons a t ih =>
      intro x xs h
      by_cases hp : p a
      · rw [List.dropWhile_cons_of_pos hp] at h
        exact ih x xs h
      · rw [List.dropWhile_cons_of_neg hp] at h
        cases h
        simpa using hp

/-- The function `trimChars` is idempotent: the left end of a left-trimmed list and
the two ends of a fully trimmed list carry no further whitespace. -/
theorem trimChars_idempotent (l : List Char) :
    trimChars (trimChars l) = trimChars l := by
  unfold trimChars
  have hleft :
      ((l.dropWhile Char.isWhitespace).rdropWhile Char.isWhitespace).dropWhile
          Char.isWhitespace =
        (l.dropWhile Char.isWhitespace).rdropWhile Char.isWhitespace := by
    cases hrd : (l.dropWhile Char.isWhitespace).rdropWhile Char.isWhitespace with
    | nil => simp
    | cons x xs =>
        obtain ⟨t, ht⟩ :=
          List.rdropWhile_prefix Char.isWhitespace (l.dropWhile Char.isWhitespace)
        rw [hrd] at ht
        have hu2 : l.dropWhile Char.isWhitespace = x :: (xs ++ t) := by
          rw [← ht]
          simp
        have hx : Char.isWhitespace x = false :=
          dropWhile_head_false _ l x (xs ++ t) hu2
        rw [List.dropWhile_cons_of_neg (by simp [hx])]
  rw [hleft, List.rdropWhile_idempotent]

/-- The model `strTrim` is idempotent. -/
theorem strTrim_idempotent (s : String) : strTrim (strTrim s) = strTrim s := by
  unfold strTrim
  exact congrArg String.mk (trimChars_idempotent s.data)

/-! ## Date utilities (`formatDate`, `addDays`, `getDaysInMonth`)

Day numbers count days since 1970-01-01 (the `Date` epoch); that day
was a Thursday, so JavaScript `getDay()` (`0 = Sunday`) is
`(days + 4) mod 7`. -/

/-- JavaScript `Date.prototype.getDay` on the day number: `0 = Sunday`,
…, `6 = Saturday` (`%` on `Int` is the Euclidean `emod`, which is what
keeps the result in `0..6` as `getDay` does). -/
def weekday (days : Int) : Int :=
  (days + 4) % 7

/-- Day number of the civil (proleptic Gregorian) date `y-m-d` with
`m ∈ [1,12]`, counted from 1970-01-01; the standard `days_from_civil`
computation, which is the calendar arithmetic `new Date(y, m-1, d)`
performs.  (`/`/`%` on `Int` are Euclidean; every divisor here is
positive, so they agree with the floor division the algorithm needs.) -/
def daysFromCivil (y m d : Int) : Int :=
  let yAdj := if m ≤ 2 then y - 1 else y
  let era := yAdj / 400
  let yoe := yAdj - era * 400
  let mp := (m + 9) % 12
  let doy := (153 * mp + 2) / 5 + d - 1
  let doe := yoe * 365 + yoe / 4 - yoe / 100 + doy
  era * 146097 + doe - 719468

/-- The source's `getDaysInMonth`: from the first of the anchor month
(`month` is 0-based, as `Date.getMonth()` returns it) step back to the
previous Sunday (`setDate(getDate() - firstDay.getDay())`) and collect
42 consecutive days. -/
def getDaysInMonth (year month : Int) : List Int :=
  let firstDay := daysFromCivil year (month + 1) 1
  let startDate := firstDay - weekday firstDay
  (List.range 42).map (fun (i : Nat) => startDate + (i : Int))

/-- The source's `isDateInRange`: inclusive containment, `date >= start
&& date <= end` on date keys. -/
def isDateInRange (date start «end» : Int) : Bool :=
  decide (start ≤ date) && decide (date ≤ «end»)

/-! ## The filter pipeline (`filteredTasks`) -/

/-- The source's `TimeFilter` union type (the all value, or a week
count parsed from the numeric alternatives). -/
inductive TimeFilter where
  | all
  | weeks (w : Nat)
deriving DecidableEq

/-- The source's `filteredTasks` memo: category membership and
case-insensitive name search, then (unless `timeFilter` is the all value)
the window test `task.startDate <= futureDateStr && task.endDate >=
todayStr` with `futureDate = addDays(today, weeks * 7)`. -/
def filteredTasks (tasks : List Task) (categoryFilters : List TaskCategory)
    (searchTerm : String) (timeFilter : TimeFilter) (today : Int) : List Task :=
  let filtered := tasks.filter fun task =>
    categoryFilters.contains task.category &&
      strIncludes (strToLower task.name) (strToLower searchTerm)
  match timeFilter with
  | TimeFilter.all => filtered
  | TimeFilter.weeks w =>
      let futureDate := today + (w : Int) * 7
      filtered.filter fun task =>
        decide (task.startDate ≤ futureDate) && decide (today ≤ task.endDate)

/-! ## Gesture handlers -/

/-- The lookup `tasks.find(t => t.id === dragState.taskId)` from `handleTaskDrag`. -/
def findTask (tasks : List Task) (id : String) : Option Task :=
  tasks.find? fun t => t.id = id

/-- The source's `handleTaskMouseDown`: classify the press by the
horizontal offset `clickX` within the chip of rendered width `width`
(`< 10` ⇒ resize the start edge, else `> width - 10` ⇒ resize the end
edge, else move) and seed the drag state with the task's current
range.  The previous drag state is overwritten wholesale. -/
def handleTaskMouseDown (clickX width : Int) (taskId : String) (task : Task)
    (_ds : DragState) : DragState :=
  let resizeType : Option ResizeEdge :=
    if clickX < 10 then some ResizeEdge.start
    else if clickX > width - 10 then some ResizeEdge.end
    else none
  { isDragging := resizeType.isNone
    isResizing := resizeType.isSome
    resizeType := resizeType
    taskId := some taskId
    startDate := some task.startDate
    endDate := some task.endDate }

/-- The source's `handleTaskDrag`: with an active drag/resize and a
day tile under the pointer (`targetDate`), either shift the whole
provisional range to start at the target (move, duration taken from
the stored task) or pull one edge to the target, refusing to cross the
opposite edge of the stored task's range (resize). -/
def handleTaskDrag (tasks : List Task) (targetDate : Option Int)
    (ds : DragState) : DragState :=
  if !ds.isDragging && !ds.isResizing then ds
  else
    match targetDate, ds.taskId with
    | some target, some id =>
        match findTask tasks id with
        | none => ds
        | some task =>
            if ds.isDragging then
              let taskDuration := task.endDate - task.startDate
              { ds with startDate := some target
                        endDate := some (target + taskDuration) }
            else if ds.isResizing then
              match ds.resizeType with
              | some ResizeEdge.start =>
                  if target ≤ task.endDate then
                    { ds with startDate := some target }
                  else ds
              | some ResizeEdge.end =>
                  if task.startDate ≤ target then
                    { ds with endDate := some target }
                  else ds
              | none => ds
            else ds
    | _, _ => ds

/-- The source's `handleTaskDragEnd`: if a task id is recorded and at
least one provisional date is set, write the provisional dates over
every task with that id (missing components fall back to the task's
own dates); then reset the drag state. -/
def handleTaskDragEnd (tasks : List Task) (ds : DragState) :
    List Task × DragState :=
  let tasks' :=
    match ds.taskId with
    | some id =>
        if ds.startDate.isSome || ds.endDate.isSome then
          tasks.map fun task =>
            if task.id = id then
              { task with startDate := ds.startDate.getD task.startDate
                          endDate := ds.endDate.getD task.endDate }
            else task
        else tasks
    | none => tasks
  (tasks', initialDragState)

/-! ## Create-gesture handlers and the creation form -/

/-- Result of `handleMouseUp`: the pieces of component state it may
write (`modalTask`, `showModal`, `createTaskState`). -/
structure MouseUpResult where
  modalTask : ModalTaskState
  showModal : Bool
  createTaskState : CreateTaskState
deriving DecidableEq

/-- The source's `handleMouseUp`: if a drag-to-create selection is
active with both dates present, normalize anchor/current into an
ordered range, prefill the creation form with it and open the modal;
in every case reset the selection state. -/
def handleMouseUp (cts : CreateTaskState) (modal : ModalTaskState)
    (showModal : Bool) : MouseUpResult :=
  match cts.isSelecting, cts.startDate, cts.currentDate with
  | true, some a, some c =>
      let s := if a ≤ c then a else c
      let e := if a ≤ c then c else a
      ⟨⟨"", TaskCategory.toDo, s, e⟩, true, initialCreateTaskState⟩
  | _, _, _ => ⟨modal, showModal, initialCreateTaskState⟩

/-- Result of `createTask`: the pieces of component state it may write. -/
structure CreateResult where
  tasks : List Task
  showModal : Bool
  modalTask : ModalTaskState
deriving DecidableEq

/-- The source's `createTask` (the modal's Create button): if the
form's name is non-blank after trimming, append a task whose id is
`Date.now().toString()` (the clock reading `now`), whose name is the
trimmed form name and whose range/category are copied verbatim from
the form, close the modal and reset the form; otherwise do nothing. -/
def createTask (now : Nat) (modal : ModalTaskState) (showModal : Bool)
    (tasks : List Task) : CreateResult :=
  if strTrim modal.name ≠ "" then
    let newTask : Task :=
      ⟨toString now, strTrim modal.name, modal.startDate, modal.endDate,
        modal.category⟩
    ⟨tasks ++ [newTask], false, ⟨"", TaskCategory.toDo, 0, 0⟩⟩
  else ⟨tasks, showModal, modal⟩

/-! ## The interactive surface -/

/-- The component state touched by the calendar surface's mouse
handlers. -/
structure SurfaceState where
  tasks : List Task
  createTaskState : CreateTaskState
  dragState : DragState
  showModal : Bool
  modalTask : ModalTaskState
deriving DecidableEq

/-- The calendar grid's `onMouseLeave` (identical to its `onMouseUp`):
run `handleMouseUp` and then `handleTaskDragEnd`. -/
def onSurfaceMouseLeave (st : SurfaceState) : SurfaceState :=
  let r := handleMouseUp st.createTaskState st.modalTask st.showModal
  let te := handleTaskDragEnd st.tasks st.dragState
  ⟨te.1, r.createTaskState, te.2, r.showModal, r.modalTask⟩

/-! ## Invariants of the task store and of an active gesture -/

/-- The spec's range invariant over the whole store: every task's
start does not exceed its end. -/
def StoreInv (tasks : List Task) : Prop :=
  ∀ t ∈ tasks, t.startDate ≤ t.endDate

instance storeInvDecidable (tasks : List Task) : Decidable (StoreInv tasks) :=
  List.decidableBAll _ tasks

/-- The inductive invariant a drag state satisfies in every reachable
configuration: a plain drag carries no resize edge, the two
provisional dates are present together, an active gesture has them
present, and when present they are ordered and the untouched edge of a
resize still equals the stored task's corresponding edge. -/
def DragInv (tasks : List Task) (ds : DragState) : Prop :=
  (ds.isDragging = true → ds.resizeType = none) ∧
  (ds.startDate.isSome = ds.endDate.isSome) ∧
  ((ds.isDragging = true ∨ ds.isResizing = true) → ds.startDate.isSome = true) ∧
  (∀ s e, ds.startDate = some s → ds.endDate = some e →
    s ≤ e ∧
    ∀ id task, ds.taskId = some id → findTask tasks id = some task →
      (ds.resizeType = some ResizeEdge.start → e = task.endDate) ∧
      (ds.resizeType = some ResizeEdge.end → s = task.startDate))

/-- The idle drag state satisfies the gesture invariant over any store. -/
theorem dragInv_initial (tasks : List Task) : DragInv tasks initialDragState := by
  refine ⟨?_, rfl, ?_, ?_⟩
  · intro h
    simp [initialDragState] at h
  · intro h
    simp [initialDragState] at h
  · intro s e hs
    simp [initialDragState] at hs

/-- A task produced by `findTask` is a member of the store. -/
theorem findTask_mem {tasks : List Task} {id : String} {task : Task}
    (h : findTask tasks id = some task) : task ∈ tasks :=
  List.mem_of_find?_eq_some h

/-- Committing a gesture that satisfies the invariant preserves the
store-wide range invariant. -/
theorem storeInv_handleTaskDragEnd (tasks : List Task) (ds : DragState)
    (hstore : StoreInv tasks) (hdrag : DragInv tasks ds) :
    StoreInv (handleTaskDragEnd tasks ds).1 := by
  obtain ⟨-, hsome, -, hrange⟩ := hdrag
  unfold handleTaskDragEnd
  cases hid : ds.taskId with
  | none => simpa using hstore
  | some id =>
      by_cases hcond : (ds.startDate.isSome || ds.endDate.isSome) = true
      · have hboth : ds.startDate.isSome = true ∧ ds.endDate.isSome = true := by
          rcases Bool.or_eq_true_iff.mp hcond with h | h
          · exact ⟨h, hsome ▸ h⟩
          · exact ⟨hsome ▸ h, h⟩
        obtain ⟨s, hs⟩ := Option.isSome_iff_exists.mp hboth.1
        obtain ⟨e, he⟩ := Option.isSome_iff_exists.mp hboth.2
        have hse : s ≤ e := (hrange s e hs he).1
        intro t' ht'
        simp only [hcond, if_true] at ht'
        obtain ⟨t, hmem, rfl⟩ := List.mem_map.mp ht'
        by_cases hmatch : t.id = id
        · simp [hmatch, hs, he, hse]
        · simpa [hmatch] using hstore t hmem
      · simp only [hcond, if_false]
        simpa using hstore

/-- Pressing a chip of a stored task establishes the gesture
invariant: the provisional range is seeded from the task that the id
lookup returns. -/
theorem dragInv_handleTaskMouseDown (tasks : List Task) (clickX width : Int)
    (taskId : String) (task : Task) (ds : DragState)
    (hstore : StoreInv tasks) (hfind : findTask tasks taskId = some task) :
    DragInv tasks (handleTaskMouseDown clickX width taskId task ds) := by
  unfold handleTaskMouseDown
  refine ⟨?_, rfl, fun _ => rfl, ?_⟩
  · intro h
    exact Option.isNone_iff_eq_none.mp h
  · intro s e hs he
    simp only [Option.some.injEq] at hs he
    subst hs
    subst he
    refine ⟨hstore task (findTask_mem hfind), ?_⟩
    intro id t hid hfind'
    simp only [Option.some.injEq] at hid
    subst hid
    rw [hfind] at hfind'
    cases hfind'
    exact ⟨fun _ => rfl, fun _ => rfl⟩

/-! ### Step equations for `handleTaskDrag` -/

/-- With neither drag nor resize active, a pointer move does nothing. -/
theorem handleTaskDrag_inactive (tasks : List Task) (td : Option Int)
    (ds : DragState) (h1 : ds.isDragging = false) (h2 : ds.isResizing = false) :
    handleTaskDrag tasks td ds = ds := by
  simp [handleTaskDrag, h1, h2]

/-- Without a day tile under the pointer, a pointer move does nothing. -/
theorem handleTaskDrag_targetNone (tasks : List Task) (ds : DragState) :
    handleTaskDrag tasks none ds = ds := by
  cases hid : ds.taskId <;> simp [handleTaskDrag, hid]

/-- Without a recorded task id, a pointer move does nothing. -/
theorem handleTaskDrag_idNone (tasks : List Task) (td : Option Int)
    (ds : DragState) (hid : ds.taskId = none) :
    handleTaskDrag tasks td ds = ds := by
  cases td <;> simp [handleTaskDrag, hid]

/-- If the recorded id matches no stored task, a pointer move does
nothing. -/
theorem handleTaskDrag_findNone (tasks : List Task) (target : Int)
    (ds : DragState) (id : String) (hid : ds.taskId = some id)
    (hfind : findTask tasks id = none) :
    handleTaskDrag tasks (some target) ds = ds := by
  simp [handleTaskDrag, hid, hfind]

/-- Move step: the provisional range is shifted to begin at the target
with the stored task's duration. -/
theorem handleTaskDrag_move (tasks : List Task) (target : Int)
    (ds : DragState) (id : String) (task : Task)
    (hd : ds.isDragging = true) (hid : ds.taskId = some id)
    (hfind : findTask tasks id = some task) :
    handleTaskDrag tasks (some target) ds =
      { ds with startDate := some target
                endDate := some (target + (task.endDate - task.startDate)) } := by
  simp [handleTaskDrag, hd, hid, hfind]

/-- Start-edge resize step, target on the valid side: only the
provisional start moves. -/
theorem handleTaskDrag_resizeStart (tasks : List Task) (target : Int)
    (ds : DragState) (id : String) (task : Task)
    (hd : ds.isDragging = false) (hr : ds.isResizing = true)
    (hrt : ds.resizeType = some ResizeEdge.start) (hid : ds.taskId = some id)
    (hfind : findTask tasks id = some task) (hle : target ≤ task.endDate) :
    handleTaskDrag tasks (some target) ds = { ds with startDate := some target } := by
  simp [handleTaskDrag, hd, hr, hrt, hid, hfind, hle]

/-- Start-edge resize step, target beyond the stored end: no-op. -/
theorem handleTaskDrag_resizeStart_noop (tasks : List Task) (target : Int)
    (ds : DragState) (id : String) (task : Task)
    (hd : ds.isDragging = false) (hr : ds.isResizing = true)
    (hrt : ds.resizeType = some ResizeEdge.start) (hid : ds.taskId = some id)
    (hfind : findTask tasks id = some task) (hgt : task.endDate < target) :
    handleTaskDrag tasks (some target) ds = ds := by
  have hle : ¬ target ≤ task.endDate := by omega
  simp [handleTaskDrag, hd, hr, hrt, hid, hfind, hle]

/-- End-edge resize step, target on the valid side: only the
provisional end moves. -/
theorem handleTaskDrag_resizeEnd (tasks : List Task) (target : Int)
    (ds : DragState) (id : String) (task : Task)
    (hd : ds.isDragging = false) (hr : ds.isResizing = true)
    (hrt : ds.resizeType = some ResizeEdge.end) (hid : ds.taskId = some id)
    (hfind : findTask tasks id = some task) (hle : task.startDate ≤ target) :
    handleTaskDrag tasks (some target) ds = { ds with endDate := some target } := by
  simp [handleTaskDrag, hd, hr, hrt, hid, hfind, hle]

/-- End-edge resize step, target before the stored start: no-op. -/
theorem handleTaskDrag_resizeEnd_noop (tasks : List Task) (target : Int)
    (ds : DragState) (id : String) (task : Task)
    (hd : ds.isDragging = false) (hr : ds.isResizing = true)
    (hrt : ds.resizeType = some ResizeEdge.end) (hid : ds.taskId = some id)
    (hfind : findTask tasks id = some task) (hgt : target < task.startDate) :
    handleTaskDrag tasks (some target) ds = ds := by
  have hle : ¬ task.startDate ≤ target := by omega
  simp [handleTaskDrag, hd, hr, hrt, hid, hfind, hle]

/-- Resize step with no recorded edge: no-op. -/
theorem handleTaskDrag_resizeNoEdge (tasks : List Task) (target : Int)
    (ds : DragState) (id : String) (task : Task)
    (hd : ds.isDragging = false) (hr : ds.isResizing = true)
    (hrt : ds.resizeType = none) (hid : ds.taskId = some id)
    (hfind : findTask tasks id = some task) :
    handleTaskDrag tasks (some target) ds = ds := by
  simp [handleTaskDrag, hd, hr, hrt, hid, hfind]

/-- A pointer move during an active gesture preserves the gesture
invariant, whatever tile (if any) is under the pointer. -/
theorem dragInv_handleTaskDrag (tasks : List Task) (targetDate : Option Int)
    (ds : DragState) (hstore : StoreInv tasks) (hdrag : DragInv tasks ds) :
    DragInv tasks (handleTaskDrag tasks targetDate ds) := by
  obtain ⟨hflag, hsome, hactive, hrange⟩ := hdrag
  have hsame : DragInv tasks ds := ⟨hflag, hsome, hactive, hrange⟩
  cases htarget : targetDate with
  | none => rw [handleTaskDrag_targetNone]; exact hsame
  | some target =>
      cases hid : ds.taskId with
      | none => rw [handleTaskDrag_idNone tasks _ ds hid]; exact hsame
      | some id =>
          cases hfind : findTask tasks id with
          | none => rw [handleTaskDrag_findNone tasks target ds id hid hfind]; exact hsame
          | some task =>
              have hmem : task ∈ tasks := findTask_mem hfind
              cases hd : ds.isDragging with
              | true =>
                  rw [handleTaskDrag_move tasks target ds id task hd hid hfind]
                  refine ⟨fun _ => hflag hd, rfl, fun _ => rfl, ?_⟩
                  intro s e hs he
                  simp only [Option.some.injEq] at hs he
                  subst hs
                  subst he
                  have hdur := hstore task hmem
                  refine ⟨by omega, ?_⟩
                  intro id' t' hid' hfind'
                  constructor
                  · intro h
                    have h' : ds.resizeType = some ResizeEdge.start := h
                    rw [hflag hd] at h'
                    cases h'
                  · intro h
                    have h' : ds.resizeType = some ResizeEdge.end := h
                    rw [hflag hd] at h'
                    cases h'
              | false =>
                  cases hr : ds.isResizing with
                  | false =>
                      rw [handleTaskDrag_inactive tasks _ ds hd hr]
                      exact hsame
                  | true =>
                      have hstart : ds.startDate.isSome = true := hactive (Or.inr hr)
                      obtain ⟨s₀, hs₀⟩ := Option.isSome_iff_exists.mp hstart
                      obtain ⟨e₀, he₀⟩ :=
                        Option.isSome_iff_exists.mp (hsome ▸ hstart)
                      obtain ⟨hs₀e₀, hedges⟩ := hrange s₀ e₀ hs₀ he₀
                      cases hrt : ds.resizeType with
                      | none =>
                          rw [handleTaskDrag_resizeNoEdge tasks target ds id task hd hr
                            hrt hid hfind]
                          exact hsame
                      | some edge =>
                          cases edge with
                          | start =>
                              by_cases hle : target ≤ task.endDate
                              · rw [handleTaskDrag_resizeStart tasks target ds id task hd
                                  hr hrt hid hfind hle]
                                have hedge : e₀ = task.endDate :=
                                  (hedges id task hid hfind).1 hrt
                                refine ⟨fun h => absurd h (by simp [hd]), by simp [he₀],
                                  fun _ => rfl, ?_⟩
                                intro s e hs he
                                simp only [Option.some.injEq] at hs
                                subst hs
                                simp only at he
                                rw [he₀] at he
                                cases he
                                refine ⟨by omega, ?_⟩
                                intro id' t' hid' hfind'
                                simp only at hid'
                                rw [hid] at hid'
                                cases hid'
                                rw [hfind] at hfind'
                                cases hfind'
                                refine ⟨fun _ => hedge, ?_⟩
                                intro hbad
                                have hbad' : ds.resizeType = some ResizeEdge.end := hbad
                                rw [hrt] at hbad'
                                simp at hbad'
                              · rw [handleTaskDrag_resizeStart_noop tasks target ds id task
                                  hd hr hrt hid hfind (by omega)]
                                exact hsame
                          | «end» =>
                              by_cases hle : task.startDate ≤ target
                              · rw [handleTaskDrag_resizeEnd tasks target ds id task hd
                                  hr hrt hid hfind hle]
                                have hedge : s₀ = task.startDate :=
                                  (hedges id task hid hfind).2 hrt
                                refine ⟨fun h => absurd h (by simp [hd]), by simp [hs₀],
                                  fun _ => hstart, ?_⟩
                                intro s e hs he
                                simp only [Option.some.injEq] at he
                                subst he
                                simp only at hs
                                rw [hs₀] at hs
                                cases hs
                                refine ⟨by omega, ?_⟩
                                intro id' t' hid' hfind'
                                simp only at hid'
                                rw [hid] at hid'
                                cases hid'
                                rw [hfind] at hfind'
                                cases hfind'
                                refine ⟨?_, fun _ => hedge⟩
                                intro hbad
                                have hbad' : ds.resizeType = some ResizeEdge.start := hbad
                                rw [hrt] at hbad'
                                simp at hbad'
                              · rw [handleTaskDrag_resizeEnd_noop tasks target ds id task
                                  hd hr hrt hid hfind (by omega)]
                                exact hsame

/-- A map that fixes every member of a list is the identity on it. -/
theorem map_eq_self_of_mem {α : Type} (f : α → α) (l : List α)
    (h : ∀ a ∈ l, f a = a) : l.map f = l := by
  induction l with
  | nil => rfl
  | cons a t ih =>
      simp only [List.map_cons, h a (by simp)]
      rw [ih fun b hb => h b (by simp [hb])]

/-! ## Claim theorems -/

/-- C1 (amended): the range invariant `startDate ≤ endDate` holds for
every stored task after a Move/Resize gesture commit — the press on a
stored task establishes the gesture invariant, every pointer move
preserves it, and the commit preserves the store invariant — and after
a confirmed creation whose form input satisfies
`startDate ≤ endDate`.  (The unamended claim, which allows arbitrary
creation-form input, is false: `createTask` copies the form's dates
without validation, see the counterexample.) -/
theorem c1_range_invariant :
    (∀ (now : Nat) (modal : ModalTaskState) (showModal : Bool) (tasks : List Task),
        modal.startDate ≤ modal.endDate → StoreInv tasks →
        StoreInv (createTask now modal showModal tasks).tasks) ∧
    (∀ (tasks : List Task) (ds : DragState), StoreInv tasks → DragInv tasks ds →
        StoreInv (handleTaskDragEnd tasks ds).1) ∧
    (∀ (tasks : List Task) (clickX width : Int) (taskId : String) (task : Task)
        (ds : DragState), StoreInv tasks → findTask tasks taskId = some task →
        DragInv tasks (handleTaskMouseDown clickX width taskId task ds)) ∧
    (∀ (tasks : List Task) (targetDate : Option Int) (ds : DragState),
        StoreInv tasks → DragInv tasks ds →
        DragInv tasks (handleTaskDrag tasks targetDate ds)) := by
  refine ⟨?_, storeInv_handleTaskDragEnd, ?_, dragInv_handleTaskDrag⟩
  · intro now modal showModal tasks hmod hstore t ht
    by_cases hname : strTrim modal.name = ""
    · simp only [createTask, hname, ne_eq, not_true_eq_false, if_false] at ht
      exact hstore t ht
    · simp only [createTask, hname, ne_eq, not_false_eq_true, if_true,
        List.mem_append, List.mem_singleton] at ht
      rcases ht with h1 | h1
      · exact hstore t h1
      · subst h1
        exact hmod
  · intro tasks clickX width taskId task ds hstore hfind
    exact dragInv_handleTaskMouseDown tasks clickX width taskId task ds hstore hfind

/-- C1 counterexample: confirming the creation form with name `"x"`
and the out-of-order range `5..3` stores a task violating
`startDate ≤ endDate` — `createTask` does not validate the range. -/
theorem c1_range_invariant_cex :
    ¬ StoreInv (createTask 1 ⟨"x", TaskCategory.toDo, 5, 3⟩ true []).tasks := by
  decide

/-- C1 witness: the amended invariant applied at concrete inputs. -/
theorem c1_range_invariant_witness :
    StoreInv (createTask 1 ⟨" a ", TaskCategory.toDo, 0, 2⟩ true []).tasks ∧
    StoreInv (handleTaskDragEnd [] initialDragState).1 ∧
    DragInv [(⟨"7", "n", 0, 2, TaskCategory.toDo⟩ : Task)]
      (handleTaskMouseDown 0 30 "7" ⟨"7", "n", 0, 2, TaskCategory.toDo⟩
        initialDragState) ∧
    DragInv [] (handleTaskDrag [] (some 9) initialDragState) :=
  ⟨c1_range_invariant.1 1 ⟨" a ", TaskCategory.toDo, 0, 2⟩ true [] (by decide)
      (by decide),
    c1_range_invariant.2.1 [] initialDragState (by decide) (dragInv_initial []),
    c1_range_invariant.2.2.1 [⟨"7", "n", 0, 2, TaskCategory.toDo⟩] 0 30 "7"
      ⟨"7", "n", 0, 2, TaskCategory.toDo⟩ initialDragState (by decide) (by decide),
    c1_range_invariant.2.2.2 [] (some 9) initialDragState (by decide)
      (dragInv_initial [])⟩

/-- C3: a pointer move during a Moving gesture places the provisional
start at the target date and the provisional end at
`target + (endDate - startDate)` of the stored task, preserving the
duration exactly. -/
theorem c3_move_preserves_duration (tasks : List Task) (target : Int)
    (ds : DragState) (id : String) (task : Task)
    (hd : ds.isDragging = true) (hid : ds.taskId = some id)
    (hfind : findTask tasks id = some task)
    (_hrange : task.startDate ≤ task.endDate) :
    (handleTaskDrag tasks (some target) ds).startDate = some target ∧
    (handleTaskDrag tasks (some target) ds).endDate =
      some (target + (task.endDate - task.startDate)) := by
  rw [handleTaskDrag_move tasks target ds id task hd hid hfind]
  exact ⟨rfl, rfl⟩

/-- C3 witness. -/
theorem c3_move_preserves_duration_witness :
    (handleTaskDrag [(⟨"1", "n", 2, 4, TaskCategory.toDo⟩ : Task)] (some 9)
        ⟨true, false, none, some ("1"), some 2, some 4⟩).startDate = some 9 ∧
    (handleTaskDrag [(⟨"1", "n", 2, 4, TaskCategory.toDo⟩ : Task)] (some 9)
        ⟨true, false, none, some ("1"), some 2, some 4⟩).endDate = some 11 :=
  c3_move_preserves_duration [⟨"1", "n", 2, 4, TaskCategory.toDo⟩] 9
    ⟨true, false, none, some ("1"), some 2, some 4⟩ "1"
    ⟨"1", "n", 2, 4, TaskCategory.toDo⟩ rfl rfl (by decide) (by decide)

/-- C4: during a Resizing(start) gesture a pointer move beyond the
provisional end (which the gesture keeps equal to the stored task's
end) is a no-op, symmetrically for Resizing(end), and any resize move
keeps the provisional range ordered. -/
theorem c4_resize_cross_noop (tasks : List Task) (target : Int) (ds : DragState)
    (id : String) (task : Task) (hd : ds.isDragging = false)
    (hr : ds.isResizing = true) (hid : ds.taskId = some id)
    (hfind : findTask tasks id = some task) :
    (∀ e, ds.resizeType = some ResizeEdge.start → ds.endDate = some e →
        e = task.endDate → e < target →
        handleTaskDrag tasks (some target) ds = ds) ∧
    (∀ s, ds.resizeType = some ResizeEdge.end → ds.startDate = some s →
        s = task.startDate → target < s →
        handleTaskDrag tasks (some target) ds = ds) ∧
    (∀ s e, StoreInv tasks → DragInv tasks ds →
        (handleTaskDrag tasks (some target) ds).startDate = some s →
        (handleTaskDrag tasks (some target) ds).endDate = some e → s ≤ e) := by
  refine ⟨?_, ?_, ?_⟩
  · intro e hrt he hetask hgt
    exact handleTaskDrag_resizeStart_noop tasks target ds id task hd hr hrt hid
      hfind (by omega)
  · intro s hrt hs hstask hgt
    exact handleTaskDrag_resizeEnd_noop tasks target ds id task hd hr hrt hid
      hfind (by omega)
  · intro s e hstore hdrag hs he
    exact ((dragInv_handleTaskDrag tasks (some target) ds hstore hdrag).2.2.2
      s e hs he).1

/-- C4 witness: a start-edge resize of the stored range `2..4` toward
day `9` is a no-op, and the provisional range stays ordered. -/
theorem c4_resize_cross_noop_witness :
    handleTaskDrag [(⟨"1", "n", 2, 4, TaskCategory.toDo⟩ : Task)] (some 9)
        ⟨false, true, some ResizeEdge.start, some ("1"), some 2, some 4⟩ =
      ⟨false, true, some ResizeEdge.start, some ("1"), some 2, some 4⟩ :=
  (c4_resize_cross_noop [⟨"1", "n", 2, 4, TaskCategory.toDo⟩] 9
      ⟨false, true, some ResizeEdge.start, some ("1"), some 2, some 4⟩ "1"
      ⟨"1", "n", 2, 4, TaskCategory.toDo⟩ rfl rfl rfl (by decide)).1
    4 rfl rfl (by decide) (by decide)

/-- C5: committing a gesture whose provisional range equals the
original range of every task carrying the gesture's id leaves the
store identical: the update call is issued but is a true no-op. -/
theorem c5_commit_idempotent (tasks : List Task) (ds : DragState) (id : String)
    (s e : Int) (hid : ds.taskId = some id) (hs : ds.startDate = some s)
    (he : ds.endDate = some e)
    (horig : ∀ t ∈ tasks, t.id = id → t.startDate = s ∧ t.endDate = e) :
    (handleTaskDragEnd tasks ds).1 = tasks := by
  unfold handleTaskDragEnd
  rw [hid]
  simp only [hs, he, Option.isSome_some, Bool.or_self, if_true, Option.getD_some]
  apply map_eq_self_of_mem
  intro t ht
  by_cases hmatch : t.id = id
  · obtain ⟨h1, h2⟩ := horig t ht hmatch
    cases t
    simp_all
  · simp [hmatch]

/-- C5 witness: committing a drag whose provisional range equals the
task's own range leaves the store unchanged. -/
theorem c5_commit_idempotent_witness :
    (handleTaskDragEnd [(⟨"1", "n", 2, 4, TaskCategory.toDo⟩ : Task)]
        ⟨true, false, none, some ("1"), some 2, some 4⟩).1 =
      [(⟨"1", "n", 2, 4, TaskCategory.toDo⟩ : Task)] :=
  c5_commit_idempotent [⟨"1", "n", 2, 4, TaskCategory.toDo⟩]
    ⟨true, false, none, some ("1"), some 2, some 4⟩ "1" 2 4 rfl rfl rfl (by decide)

/-- C2 (amended): leaving the interactive surface while a Create
gesture is active behaves exactly like releasing the pointer: the
anchor/current range is normalized and handed to the creation form,
the modal is OPENED prefilled with it, no task is added, and the
selection and drag states return to idle.  (The unamended claim —
discard without opening the creation modal — is false: the grid's
`onMouseLeave` runs the same `handleMouseUp` as `onMouseUp`.) -/
theorem c2_leave_while_creating (st : SurfaceState) (a c : Int)
    (hsel : st.createTaskState = ⟨true, some a, some c⟩)
    (hds : st.dragState = initialDragState) :
    (onSurfaceMouseLeave st).tasks = st.tasks ∧
    (onSurfaceMouseLeave st).showModal = true ∧
    (onSurfaceMouseLeave st).modalTask =
      ⟨"", TaskCategory.toDo, if a ≤ c then a else c, if a ≤ c then c else a⟩ ∧
    (onSurfaceMouseLeave st).createTaskState = initialCreateTaskState ∧
    (onSurfaceMouseLeave st).dragState = initialDragState := by
  unfold onSurfaceMouseLeave handleMouseUp handleTaskDragEnd
  rw [hsel, hds]
  simp [initialDragState]

/-- C2 counterexample: with an active Create selection `0..2`, leaving
the surface opens the creation modal — the claim says it must not. -/
theorem c2_leave_while_creating_cex :
    (onSurfaceMouseLeave
        ⟨[], ⟨true, some 0, some 2⟩, initialDragState, false,
          ⟨"", TaskCategory.toDo, 0, 0⟩⟩).showModal = true := by
  decide

/-- C2 witness: the amended behaviour at a concrete state. -/
theorem c2_leave_while_creating_witness :
    (onSurfaceMouseLeave
        ⟨[], ⟨true, some 2, some 0⟩, initialDragState, false,
          ⟨"", TaskCategory.toDo, 0, 0⟩⟩).tasks = [] ∧
    (onSurfaceMouseLeave
        ⟨[], ⟨true, some 2, some 0⟩, initialDragState, false,
          ⟨"", TaskCategory.toDo, 0, 0⟩⟩).showModal = true ∧
    (onSurfaceMouseLeave
        ⟨[], ⟨true, some 2, some 0⟩, initialDragState, false,
          ⟨"", TaskCategory.toDo, 0, 0⟩⟩).modalTask =
      ⟨"", TaskCategory.toDo, if (2 : Int) ≤ 0 then 2 else 0,
        if (2 : Int) ≤ 0 then 0 else 2⟩ ∧
    (onSurfaceMouseLeave
        ⟨[], ⟨true, some 2, some 0⟩, initialDragState, false,
          ⟨"", TaskCategory.toDo, 0, 0⟩⟩).createTaskState =
      initialCreateTaskState ∧
    (onSurfaceMouseLeave
        ⟨[], ⟨true, some 2, some 0⟩, initialDragState, false,
          ⟨"", TaskCategory.toDo, 0, 0⟩⟩).dragState = initialDragState :=
  c2_leave_while_creating
    ⟨[], ⟨true, some 2, some 0⟩, initialDragState, false,
      ⟨"", TaskCategory.toDo, 0, 0⟩⟩ 2 0 rfl rfl

/-- C6 (amended): creation rejects — store, modal visibility and form
all unchanged — exactly when the trimmed name is empty; otherwise it
appends, at the end and preserving the existing order, a task whose id
is the decimal string of the clock reading `now`.  That id is distinct
from existing ids only when no stored task already carries the string
of `now`; the code does not enforce this (see the counterexample). -/
theorem c6_create_reject_or_append (now : Nat) (modal : ModalTaskState)
    (showModal : Bool) (tasks : List Task) :
    (strTrim modal.name = "" →
        createTask now modal showModal tasks = ⟨tasks, showModal, modal⟩) ∧
    (strTrim modal.name ≠ "" →
        (createTask now modal showModal tasks).tasks =
          tasks ++ [⟨toString now, strTrim modal.name, modal.startDate,
            modal.endDate, modal.category⟩] ∧
        (createTask now modal showModal tasks).showModal = false) := by
  constructor
  · intro hname
    simp [createTask, hname]
  · intro hname
    exact ⟨by simp [createTask, hname], by simp [createTask, hname]⟩

/-- C6 counterexample: creating while the store already holds a task
with id `"5"` and the clock reads `5` yields two tasks with the same
id — the assigned id is not fresh. -/
theorem c6_create_reject_or_append_cex :
    ((createTask 5 ⟨"x", TaskCategory.toDo, 0, 1⟩ true
        [⟨"5", "a", 0, 1, TaskCategory.toDo⟩]).tasks.map Task.id) =
      ["5", "5"] := by
  decide

/-- C6 witness: a blank name is rejected wholesale and a non-blank
name is appended with the clock-string id. -/
theorem c6_create_reject_or_append_witness :
    createTask 3 ⟨"  ", TaskCategory.toDo, 0, 1⟩ true [] =
      ⟨[], true, ⟨"  ", TaskCategory.toDo, 0, 1⟩⟩ ∧
    (createTask 3 ⟨" a ", TaskCategory.toDo, 0, 1⟩ true []).tasks =
      [] ++ [⟨toString 3, strTrim (" a "), 0, 1, TaskCategory.toDo⟩] :=
  ⟨(c6_create_reject_or_append 3 ⟨"  ", TaskCategory.toDo, 0, 1⟩ true []).1
      (by decide),
    ((c6_create_reject_or_append 3 ⟨" a ", TaskCategory.toDo, 0, 1⟩ true []).2
      (by decide)).1⟩

/-! ## Spec-side definitions for the filter refinement (C7)

These two definitions follow the SPEC's words (§4.1 `rangesIntersect`
and §4.3 `visibleTasks`), to be compared with the source-side
`filteredTasks` above. -/

/-- Spec §4.1: `rangesIntersect(aStart, aEnd, bStart, bEnd)` is
`aStart <= bEnd && bStart <= aEnd`. -/
def rangesIntersect (aStart aEnd bStart bEnd : Int) : Bool :=
  decide (aStart ≤ bEnd) && decide (bStart ≤ aEnd)

/-- Spec §4.3: retain a task iff its category is enabled, its
lowercased name contains the lowercased search text, and — unless the
window is `all` — its range intersects `[today, today + 7*w]`. -/
def visibleSpec (categoryFilters : List TaskCategory) (searchTerm : String)
    (timeFilter : TimeFilter) (today : Int) (task : Task) : Bool :=
  categoryFilters.contains task.category &&
    strIncludes (strToLower task.name) (strToLower searchTerm) &&
    (match timeFilter with
     | TimeFilter.all => true
     | TimeFilter.weeks w =>
         rangesIntersect task.startDate task.endDate today (today + 7 * (w : Int)))

/-- C7: the source's `filteredTasks` is exactly the stable filter of
the store by the spec's visibility predicate — so it contains exactly
the matching tasks, in insertion order — and an empty enabled-category
set yields an empty result. -/
theorem c7_filter_characterization (tasks : List Task)
    (categoryFilters : List TaskCategory) (searchTerm : String)
    (timeFilter : TimeFilter) (today : Int) :
    filteredTasks tasks categoryFilters searchTerm timeFilter today =
      tasks.filter (visibleSpec categoryFilters searchTerm timeFilter today) ∧
    filteredTasks tasks [] searchTerm timeFilter today = [] := by
  have hmain : ∀ (cf : List TaskCategory),
      filteredTasks tasks cf searchTerm timeFilter today =
        tasks.filter (visibleSpec cf searchTerm timeFilter today) := by
    intro cf
    cases timeFilter with
    | all =>
        simp only [filteredTasks]
        apply List.filter_congr
        intro t _
        simp [visibleSpec]
    | weeks w =>
        simp only [filteredTasks]
        rw [List.filter_filter]
        apply List.filter_congr
        intro t _
        simp only [visibleSpec, rangesIntersect, Bool.and_assoc]
        rw [Int.mul_comm]
        cases hA : cf.contains t.category <;>
          cases hB : strIncludes (strToLower t.name) (strToLower searchTerm) <;>
          cases hC : decide (t.startDate ≤ today + 7 * (w : Int)) <;>
          cases hD : decide (today ≤ t.endDate) <;> simp
  refine ⟨hmain categoryFilters, ?_⟩
  rw [hmain []]
  apply List.filter_eq_nil_iff.mpr
  intro t _
  simp [visibleSpec]

/-- C9: a press on a task chip is classified by the horizontal offset:
inside the left 10px zone it starts a start-edge resize (this zone
wins even on chips narrower than 20px where both zone conditions
hold), otherwise inside the right 10px zone an end-edge resize,
otherwise a move; the provisional range is seeded with the task's
current range in every case. -/
theorem c9_press_classification (clickX width : Int) (taskId : String)
    (task : Task) (ds : DragState) :
    (handleTaskMouseDown clickX width taskId task ds).taskId = some taskId ∧
    (handleTaskMouseDown clickX width taskId task ds).startDate =
      some task.startDate ∧
    (handleTaskMouseDown clickX width taskId task ds).endDate =
      some task.endDate ∧
    (clickX < 10 →
        (handleTaskMouseDown clickX width taskId task ds).isResizing = true ∧
        (handleTaskMouseDown clickX width taskId task ds).isDragging = false ∧
        (handleTaskMouseDown clickX width taskId task ds).resizeType =
          some ResizeEdge.start) ∧
    (10 ≤ clickX → width - 10 < clickX →
        (handleTaskMouseDown clickX width taskId task ds).isResizing = true ∧
        (handleTaskMouseDown clickX width taskId task ds).isDragging = false ∧
        (handleTaskMouseDown clickX width taskId task ds).resizeType =
          some ResizeEdge.end) ∧
    (10 ≤ clickX → clickX ≤ width - 10 →
        (handleTaskMouseDown clickX width taskId task ds).isDragging = true ∧
        (handleTaskMouseDown clickX width taskId task ds).isResizing = false ∧
        (handleTaskMouseDown clickX width taskId task ds).resizeType = none) := by
  refine ⟨rfl, rfl, rfl, ?_, ?_, ?_⟩
  · intro h1
    simp [handleTaskMouseDown, h1]
  · intro h1 h2
    have hn1 : ¬ clickX < 10 := by omega
    have hn2 : width - 10 < clickX := h2
    simp [handleTaskMouseDown, hn1, hn2]
  · intro h1 h2
    have hn1 : ¬ clickX < 10 := by omega
    have hn2 : ¬ width - 10 < clickX := by omega
    simp [handleTaskMouseDown, hn1, hn2]

/-- C9 witness: on a 15px-wide chip (narrower than 20px) a press at
offset 5 satisfies both zone conditions and is classified as a
start-edge resize, with the provisional range seeded from the task. -/
theorem c9_press_classification_witness :
    (handleTaskMouseDown 5 15 "1" ⟨"1", "n", 2, 4, TaskCategory.toDo⟩
        initialDragState).startDate = some 2 ∧
    (handleTaskMouseDown 5 15 "1" ⟨"1", "n", 2, 4, TaskCategory.toDo⟩
        initialDragState).isResizing = true ∧
    (handleTaskMouseDown 5 15 "1" ⟨"1", "n", 2, 4, TaskCategory.toDo⟩
        initialDragState).isDragging = false ∧
    (handleTaskMouseDown 5 15 "1" ⟨"1", "n", 2, 4, TaskCategory.toDo⟩
        initialDragState).resizeType = some ResizeEdge.start :=
  ⟨(c9_press_classification 5 15 "1" ⟨"1", "n", 2, 4, TaskCategory.toDo⟩
      initialDragState).2.1,
    (c9_press_classification 5 15 "1" ⟨"1", "n", 2, 4, TaskCategory.toDo⟩
      initialDragState).2.2.2.1 (by decide)⟩

/-- C10: every successfully created task is stored with a trimmed
name: the stored name equals its own trim, for every creation-form
input whose name is non-blank after trimming. -/
theorem c10_stored_name_trimmed (now : Nat) (modal : ModalTaskState)
    (showModal : Bool) (tasks : List Task)
    (hname : strTrim modal.name ≠ "") :
    ∃ newTask : Task,
      (createTask now modal showModal tasks).tasks = tasks ++ [newTask] ∧
      strTrim newTask.name = newTask.name := by
  refine ⟨⟨toString now, strTrim modal.name, modal.startDate, modal.endDate,
    modal.category⟩, ?_, ?_⟩
  · simp [createTask, hname]
  · exact strTrim_idempotent modal.name

/-- C10 witness. -/
theorem c10_stored_name_trimmed_witness :
    ∃ newTask : Task,
      (createTask 2 ⟨" a ", TaskCategory.toDo, 0, 1⟩ true []).tasks =
        [] ++ [newTask] ∧
      strTrim newTask.name = newTask.name :=
  c10_stored_name_trimmed 2 ⟨" a ", TaskCategory.toDo, 0, 1⟩ true [] (by decide)

/-- The grid `getDaysInMonth` written as an explicit map over `List.range`. -/
theorem getDaysInMonth_eq (year month : Int) :
    getDaysInMonth year month =
      (List.range 42).map fun (i : Nat) =>
        daysFromCivil year (month + 1) 1 -
          weekday (daysFromCivil year (month + 1) 1) + (i : Int) :=
  rfl

/-- C8: for every anchor month the grid is 42 consecutive day numbers
whose first entry is the Sunday on or before the first of the month
(it is a Sunday, does not exceed the first, and lies less than a week
before it). -/
theorem c8_month_grid (year month : Int) :
    (getDaysInMonth year month).length = 42 ∧
    (∀ (i : Nat) (h : i + 1 < (getDaysInMonth year month).length),
        (getDaysInMonth year month).get ⟨i + 1, h⟩ =
          (getDaysInMonth year month).get ⟨i, by omega⟩ + 1) ∧
    (∀ (h : 0 < (getDaysInMonth year month).length),
        (getDaysInMonth year month).get ⟨0, h⟩ =
          daysFromCivil year (month + 1) 1 -
            weekday (daysFromCivil year (month + 1) 1)) ∧
    weekday (daysFromCivil year (month + 1) 1 -
        weekday (daysFromCivil year (month + 1) 1)) = 0 ∧
    daysFromCivil year (month + 1) 1 -
        weekday (daysFromCivil year (month + 1) 1) ≤
      daysFromCivil year (month + 1) 1 ∧
    daysFromCivil year (month + 1) 1 -
        (daysFromCivil year (month + 1) 1 -
          weekday (daysFromCivil year (month + 1) 1)) < 7 := by
  refine ⟨?_, ?_, ?_, ?_, ?_, ?_⟩
  · rw [getDaysInMonth_eq, List.length_map, List.length_range]
  · intro i h
    simp only [getDaysInMonth_eq, List.get_eq_getElem, List.getElem_map,
      List.getElem_range]
    push_cast
    ring
  · intro h
    simp only [getDaysInMonth_eq, List.get_eq_getElem, List.getElem_map,
      List.getElem_range]
    simp
  · unfold weekday
    omega
  · unfold weekday
    omega
  · unfold weekday
    omega

/-- C8 witness: February 2024 (a leap year) and December 2024 (year
rollover) instantiated. -/
theorem c8_month_grid_witness :
    (getDaysInMonth 2024 1).get ⟨1, by decide⟩ =
        (getDaysInMonth 2024 1).get ⟨0, by decide⟩ + 1 ∧
    (getDaysInMonth 2024 1).get ⟨0, by decide⟩ =
        daysFromCivil 2024 2 1 - weekday (daysFromCivil 2024 2 1) ∧
    (getDaysInMonth 2024 11).get ⟨0, by decide⟩ =
        daysFromCivil 2024 12 1 - weekday (daysFromCivil 2024 12 1) :=
  ⟨(c8_month_grid 2024 1).2.1 0 (by decide),
    (c8_month_grid 2024 1).2.2.1 (by decide),
    (c8_month_grid 2024 11).2.2.1 (by decide)⟩

end TaskPlanner
